import Mathlib

/-!
Verification of the field-context and multi-sink dispatch core of the
w84thesun/logger repository (a thin wrapper around a zap-style emitter).

The Go sources are embedded shallowly:

* `Fields` (fields.go) — contents of a Go `map[string]interface{}` are an
  association list with unique keys; Go map *objects* (which are mutable
  references) are cells of an explicit `Heap`, so that the non-mutation
  properties of `Copy`/`Merge`/`With` are genuine statements about the
  heap and not artifacts of a pure embedding.
* `Fields.Flatten`, the flatten pool and `prepare` (fields.go, client.go) —
  pure functions over the map contents, with the pool passed explicitly and
  an event trace recording acquire/consume/release of the pooled buffer.
* the factory `New`, `getFormat`, `getLevel`, `newZapLogger`,
  `newStdoutCore`, `newLogstashCore` (client.go) — pure functions; the
  network dial of the logstash core is an external collaborator and is
  modelled by a `World` oracle.
* `Trace` and `Recover` (client.go) — the panic payload that `recover()`
  observes is passed explicitly as an `Option`, and the leveled calls the
  two methods make are returned as an event list.
-/

namespace LoggerRepo

/-- Values stored in a field map; models the Go interface values the
repository actually puts into `Fields`. -/
inductive Value where
  | str (s : String)
  | int (n : Int)
  | bool (b : Bool)
  deriving DecidableEq, Repr

/-- Contents of a Go `map[string]interface{}`: an association list.
Go guarantees the keys of a map are pairwise distinct; theorems that
depend on that carry a `Nodup` hypothesis on the keys. -/
abbrev Fields := List (String × Value)

/-- The keys of a field map. -/
def keys (m : Fields) : List String := m.map Prod.fst

/-- Go map read `v, ok := m[k]` on the contents. -/
def lookupF (m : Fields) (k : String) : Option Value :=
  match m with
  | [] => none
  | kv :: rest => if kv.1 = k then some kv.2 else lookupF rest k

/-- Go map assignment `m[k] = v` on the contents: replaces the binding of
`k` when present (keys are unique), appends a new binding otherwise. -/
def setKey (m : Fields) (k : String) (v : Value) : Fields :=
  match m with
  | [] => [(k, v)]
  | kv :: rest => if kv.1 = k then (k, v) :: rest else kv :: setKey rest k v

/-- The `ignore` set of fields.go: keys always produced by the base
emitter itself. -/
def ignore : List String := ["@timestamp", "message", "level", "service"]

def isReserved (k : String) : Bool := ignore.contains k

/-- `Fields.Flatten` of fields.go: for every entry whose key is not in
`ignore`, append the key and then the value onto the buffer obtained from
the flatten pool (passed here explicitly as `buf`). -/
def Fields.Flatten (f : Fields) (buf : List Value) : List Value :=
  f.foldl (fun list kv => if isReserved kv.1 then list else list ++ [Value.str kv.1, kv.2]) buf

/-- Groups a flattened list into consecutive (key, value) pairs. -/
def chunkPairs : List Value → List (Value × Value)
  | k :: v :: rest => (k, v) :: chunkPairs rest
  | _ => []

/-- Number of occurrences of a pair in a list of pairs. -/
def countOcc (x : Value × Value) : List (Value × Value) → Nat
  | [] => 0
  | y :: rest => (if y = x then 1 else 0) + countOcc x rest

/-- The semantic content of `F.Merge(extra)`: write every entry of `extra`
into (a copy of) `F`, in iteration order. -/
def mergeContents (f e : Fields) : Fields :=
  e.foldl (fun m kv => setKey m kv.1 kv.2) f

/-! ## Severity levels, sinks and the factory (client.go) -/

/-- The severity-ordered enum of the base emitter, with the order the spec
assumes for it: debug < info < warn < error < fatal < panic. The emitter
library itself is an external collaborator of the repository. -/
inductive Level where
  | debug
  | info
  | warn
  | error
  | fatal
  | panic
  deriving DecidableEq, Repr

def Level.toNat : Level → Nat
  | .debug => 0
  | .info => 1
  | .warn => 2
  | .error => 3
  | .fatal => 4
  | .panic => 5

inductive ConfigError where
  | badFormat (format : String)
  | badLevel (level : String)
  deriving DecidableEq, Repr

inductive TransportError where
  | dialFailed (protocol addr : String)
  deriving DecidableEq, Repr

inductive Err where
  | config (e : ConfigError)
  | transport (e : TransportError)
  deriving DecidableEq, Repr

def FormatJSON : String := "json"

def FormatPretty : String := "pretty"

/-- `getFormat` of client.go. -/
def getFormat (format : String) : Except ConfigError String :=
  if format = "" then Except.ok FormatJSON
  else if format ≠ FormatJSON ∧ format ≠ FormatPretty then
    Except.error (ConfigError.badFormat format)
  else Except.ok format

/-- `getLevel` of client.go. -/
def getLevel (level : String) : Except ConfigError Level :=
  if level = "debug" then Except.ok Level.debug
  else if level = "info" then Except.ok Level.info
  else if level = "warn" then Except.ok Level.warn
  else if level = "error" then Except.ok Level.error
  else if level = "fatal" then Except.ok Level.fatal
  else if level = "panic" then Except.ok Level.panic
  else Except.error (ConfigError.badLevel level)

inductive Encoder where
  | json
  | console
  deriving DecidableEq, Repr

/-- One sink: threshold, encoder and pre-attached constant fields. -/
structure Core where
  threshold : Level
  encoder : Encoder
  extra : Fields
  deriving DecidableEq, Repr

/-- The `LevelEnablerFunc` closure of client.go:
`func(level) bool := level >= zapLevel`, with the stored threshold as
`zapLevel`. -/
def Core.enabled (c : Core) (level : Level) : Bool :=
  c.threshold.toNat ≤ level.toNat

/-- `newStdoutCore` of client.go. -/
def newStdoutCore (zapLevel : Level) (format : String) : Core :=
  { threshold := zapLevel
    encoder := if format = FormatJSON then Encoder.json else Encoder.console
    extra := [] }

/-- External collaborators: the outcome of `net.Dial`. -/
structure World where
  dialOk : String → String → Bool

/-- `newLogstashCore` of client.go; the dial is delegated to the `World`. -/
def newLogstashCore (w : World) (zapLevel : Level) (protocol addr : String) :
    Except Err Core :=
  if w.dialOk protocol addr then
    Except.ok
      { threshold := zapLevel
        encoder := Encoder.json
        extra := [("@version", Value.str "1"), ("type", Value.str "log")] }
  else
    Except.error (Err.transport (TransportError.dialFailed protocol addr))

/-- The tee of cores plus the static service field attached to all of them. -/
structure ZapLogger where
  cores : List Core
  service : String
  deriving DecidableEq, Repr

/-- `newZapLogger` of client.go: stdout core unless disabled, logstash core
only when a URI is configured (with a warning). Returns the warning lines
it prints alongside the result. -/
def newZapLogger (w : World) (zapLevel : Level) (service : String)
    (logstashProtocol logstashURI : String) (disableStdout : Bool)
    (formatStdout : String) : List String × Except Err ZapLogger :=
  let cores1 : List Core :=
    if disableStdout then [] else [newStdoutCore zapLevel formatStdout]
  if logstashURI ≠ "" then
    match newLogstashCore w zapLevel logstashProtocol logstashURI with
    | Except.error e =>
        (["using logstash, should not be used in production"], Except.error e)
    | Except.ok c =>
        (["using logstash, should not be used in production"],
          Except.ok { cores := cores1 ++ [c], service := service })
  else
    ([], Except.ok { cores := cores1, service := service })

structure LoggingConfig where
  Service : String
  Level : String
  Namespace : String
  DisableStdout : Bool
  FormatStdout : String
  LogstashURI : String
  LogstashProtocol : String
  deriving DecidableEq, Repr

/-- The logger value the factory returns: the shared base emitter and the
contents of the freshly allocated field map seeded with the namespace. -/
structure LoggerValue where
  base : ZapLogger
  fields : Fields
  deriving DecidableEq, Repr

/-- `New` of client.go. Returns the warning lines printed via `log.Println`
alongside the result. -/
def New (w : World) (cfg : LoggingConfig) : List String × Except Err LoggerValue :=
  let levelWarn : List String :=
    if cfg.Level = "" then ["logging level not set, using info"] else []
  let level := if cfg.Level = "" then "info" else cfg.Level
  match getFormat cfg.FormatStdout with
  | Except.error e => (levelWarn, Except.error (Err.config e))
  | Except.ok format =>
    match getLevel level with
    | Except.error e => (levelWarn, Except.error (Err.config e))
    | Except.ok zapLevel =>
      match newZapLogger w zapLevel cfg.Service cfg.LogstashProtocol
          cfg.LogstashURI cfg.DisableStdout format with
      | (ws, Except.error e) => (levelWarn ++ ws, Except.error e)
      | (ws, Except.ok zl) =>
          (levelWarn ++ ws,
            Except.ok { base := zl, fields := [("namespace", Value.str cfg.Namespace)] })

structure LogRecord where
  level : Level
  message : String
  deriving DecidableEq, Repr

/-- What one core does with a record: emit it iff its enabler accepts the
record's level. -/
def coreWrite (c : Core) (r : LogRecord) : List LogRecord :=
  if c.enabled r.level then [r] else []

/-- A leveled log call: the tee broadcasts the record to every core. -/
def logCall (lg : LoggerValue) (r : LogRecord) : List LogRecord :=
  lg.base.cores.foldr (fun c acc => coreWrite c r ++ acc) []

/-! ## The heap of Go map objects -/

/-- Go map objects are mutable references; the heap maps each allocated
reference (a `Nat` index) to its current contents. -/
structure Heap where
  maps : List Fields
  deriving Repr

def Heap.get (h : Heap) (r : Nat) : Fields :=
  h.maps.getD r []

def Heap.alloc (h : Heap) (m : Fields) : Heap × Nat :=
  ({ maps := h.maps ++ [m] }, h.maps.length)

/-- In-place Go map assignment `(heap cell r)[k] = v`. -/
def Heap.assign (h : Heap) (r : Nat) (k : String) (v : Value) : Heap :=
  { maps := h.maps.set r (setKey (h.get r) k v) }

/-- `Fields.Copy` of fields.go: allocate a fresh map holding the same
entries. -/
def Fields.Copy (h : Heap) (f : Nat) : Heap × Nat :=
  h.alloc (h.get f)

/-- `Fields.Merge` of fields.go: copy the receiver, then assign every entry
of `newValues` into the copy, in place. -/
def Fields.Merge (h : Heap) (f newValues : Nat) : Heap × Nat :=
  let p := Fields.Copy h f
  ((p.1.get newValues).foldl (fun hh kv => hh.assign p.2 kv.1 kv.2) p.1, p.2)

/-- The facade value: shared base emitter plus a reference to its owned
field map. -/
structure loggerImpl where
  base : ZapLogger
  fields : Nat
  deriving Repr

/-- `loggerImpl.With` of client.go: value receiver, so the returned copy
points at the merged map while the receiver keeps its reference. -/
def loggerImpl.With (h : Heap) (l : loggerImpl) (fields : Nat) : Heap × loggerImpl :=
  let p := Fields.Merge h l.fields fields
  (p.1, { l with fields := p.2 })

/-- `loggerImpl.Namespace` of client.go: merge the literal map
namespace ↦ ns (the literal is itself a fresh allocation). -/
def loggerImpl.Namespace (h : Heap) (l : loggerImpl) (ns : String) : Heap × loggerImpl :=
  let a := h.alloc [("namespace", Value.str ns)]
  let p := Fields.Merge a.1 l.fields a.2
  (p.1, { l with fields := p.2 })

/-- `loggerImpl.GetField` of client.go: `value, ok = l.fields[fieldName]`,
with the miss case rendered as `none`. -/
def loggerImpl.GetField (h : Heap) (l : loggerImpl) (fieldName : String) : Option Value :=
  lookupF (h.get l.fields) fieldName

/-! ## The flatten pool and `prepare` -/

/-- The free buffers of the flatten pool. `Get` on an empty pool runs the
pool's `New`, which returns a fresh empty buffer. -/
abbrev Pool := List (List Value)

def poolGet (p : Pool) : List Value × Pool :=
  match p with
  | [] => ([], [])
  | b :: rest => (b, rest)

/-- `putFlatten` of fields.go: return `flatten[:0]` — the buffer reset to
length zero — to the pool. -/
def putFlatten (flatten : List Value) (p : Pool) : Pool :=
  flatten.take 0 :: p

/-- Trace of the pooled buffer's life during one `prepare` call. -/
inductive PoolEvt where
  | acq (b : List Value)
  | consume (b : List Value)
  | rel (b : List Value)
  deriving DecidableEq, Repr

def isRel : PoolEvt → Bool
  | PoolEvt.rel _ => true
  | _ => false

def isAcq : PoolEvt → Bool
  | PoolEvt.acq _ => true
  | _ => false

/-- `loggerImpl.prepare` of client.go, the single routine every leveled
call goes through: flatten the fields into a pooled buffer, hand the
result to the base emitter (`base.With(flatten...)`, the `consume` event),
then `putFlatten` it. Returns the flattened list, the pool afterwards, and
the buffer trace. -/
def prepare (f : Fields) (p : Pool) : List Value × Pool × List PoolEvt :=
  let g := poolGet p
  let flatten := Fields.Flatten f g.1
  (flatten, putFlatten flatten g.2,
    [PoolEvt.acq g.1, PoolEvt.consume flatten, PoolEvt.rel (flatten.take 0)])

/-! ## `Trace` and `Recover` -/

/-- An error value; the repository only ever inspects it as an opaque
message to print with its stack. -/
abbrev GoError := String

/-- What `recover()` can hand back when a panic is unwinding, split the way
the `switch v := i.(type)` of `Recover` splits it. -/
inductive PanicPayload where
  | err (e : GoError)
  | str (s : String)
  | other (v : Value)
  deriving DecidableEq, Repr

/-- The leveled calls `Trace` and `Recover` make. -/
inductive Event where
  | errorTrace (e : GoError)
  | panicLog (msg : String) (payload : PanicPayload)
  deriving DecidableEq, Repr

def errorsNew (s : String) : GoError := s

/-- `loggerImpl.Trace` of client.go: on a non-nil error, an Error-level
record carrying the error with its stack. -/
def Trace (err : Option GoError) : List Event :=
  match err with
  | none => []
  | some e => [Event.errorTrace e]

/-- `loggerImpl.Recover` of client.go: `recovered` is what `recover()`
returned (`none` when no panic is unwinding). -/
def Recover (recovered : Option PanicPayload) (msg : String) : List Event :=
  match recovered with
  | none => []
  | some i =>
    (match i with
     | PanicPayload.err e => Trace (some e)
     | PanicPayload.str s => Trace (some (errorsNew s))
     | PanicPayload.other _ => []) ++ [Event.panicLog msg i]

/-! ## Basic lemmas about lookup, assignment and keys -/

theorem lookupF_cons (kv : String × Value) (m : Fields) (k : String) :
    lookupF (kv :: m) k = if kv.1 = k then some kv.2 else lookupF m k := rfl

theorem lookupF_setKey (m : Fields) (k : String) (v : Value) (k' : String) :
    lookupF (setKey m k v) k' = if k' = k then some v else lookupF m k' := by
  induction m with
  | nil =>
    rw [show setKey [] k v = [(k, v)] from rfl, lookupF_cons]
    by_cases h : k = k'
    · simp [h]
    · have h' : ¬k' = k := fun hh => h hh.symm
      simp [h, h', lookupF]
  | cons kv rest ih =>
    by_cases h0 : kv.1 = k
    · rw [show setKey (kv :: rest) k v = (k, v) :: rest from by simp [setKey, h0],
        lookupF_cons, lookupF_cons]
      by_cases h : k = k'
      · simp [h]
      · have h' : ¬k' = k := fun hh => h hh.symm
        have h0' : ¬kv.1 = k' := fun hh => h (h0.symm.trans hh)
        simp [h, h', h0']
    · rw [show setKey (kv :: rest) k v = kv :: setKey rest k v from by simp [setKey, h0],
        lookupF_cons, lookupF_cons, ih]
      by_cases h1 : kv.1 = k'
      · have h' : ¬k' = k := fun hh => h0 (h1.trans hh)
        simp [h1, h']
      · simp [h1]

theorem keys_cons (kv : String × Value) (m : Fields) :
    keys (kv :: m) = kv.1 :: keys m := rfl

theorem lookupF_eq_none_iff (m : Fields) (k : String) :
    lookupF m k = none ↔ k ∉ keys m := by
  induction m with
  | nil => simp [lookupF, keys]
  | cons kv rest ih =>
    rw [lookupF_cons, keys_cons]
    by_cases h : kv.1 = k
    · simp [h]
    · simp [h, ih, Ne.symm h]

theorem keys_setKey_mem (m : Fields) (k : String) (v : Value) (h : k ∈ keys m) :
    keys (setKey m k v) = keys m := by
  induction m with
  | nil => simp [keys] at h
  | cons kv rest ih =>
    by_cases h0 : kv.1 = k
    · rw [show setKey (kv :: rest) k v = (k, v) :: rest from by simp [setKey, h0],
        keys_cons, keys_cons, h0]
    · rw [keys_cons, List.mem_cons] at h
      rcases h with h | h
      · exact absurd h.symm h0
      · rw [show setKey (kv :: rest) k v = kv :: setKey rest k v from by simp [setKey, h0],
          keys_cons, keys_cons, ih h]

theorem keys_setKey_not_mem (m : Fields) (k : String) (v : Value) (h : k ∉ keys m) :
    keys (setKey m k v) = keys m ++ [k] := by
  induction m with
  | nil => simp [setKey, keys]
  | cons kv rest ih =>
    rw [keys_cons, List.mem_cons] at h
    push_neg at h
    have h' : ¬kv.1 = k := fun hh => h.1 hh.symm
    rw [show setKey (kv :: rest) k v = kv :: setKey rest k v from by simp [setKey, h'],
      keys_cons, keys_cons, ih h.2]
    rfl

theorem nodup_keys_setKey (m : Fields) (k : String) (v : Value)
    (h : (keys m).Nodup) : (keys (setKey m k v)).Nodup := by
  by_cases hm : k ∈ keys m
  · rw [keys_setKey_mem m k v hm]; exact h
  · rw [keys_setKey_not_mem m k v hm]
    refine List.Nodup.append h (List.nodup_singleton k) ?_
    intro a ha hak
    rw [List.mem_singleton] at hak
    exact hm (hak ▸ ha)

theorem mergeContents_nil (f : Fields) : mergeContents f [] = f := rfl

theorem mergeContents_cons (f : Fields) (kv : String × Value) (e : Fields) :
    mergeContents f (kv :: e) = mergeContents (setKey f kv.1 kv.2) e := rfl

theorem lookupF_mergeContents (f e : Fields) (k : String) (hnd : (keys e).Nodup) :
    lookupF (mergeContents f e) k = (lookupF e k).or (lookupF f k) := by
  induction e generalizing f with
  | nil => simp [mergeContents, lookupF]
  | cons kv rest ih =>
    rw [keys_cons, List.nodup_cons] at hnd
    rw [mergeContents_cons, ih _ hnd.2, lookupF_cons]
    by_cases h : kv.1 = k
    · have hr : lookupF rest k = none := (lookupF_eq_none_iff rest k).2 (h ▸ hnd.1)
      rw [hr, if_pos h, lookupF_setKey, if_pos h.symm]
      simp
    · rw [if_neg h, lookupF_setKey, if_neg (fun hh => h hh.symm)]

theorem nodup_keys_mergeContents (f e : Fields) (hf : (keys f).Nodup) :
    (keys (mergeContents f e)).Nodup := by
  induction e generalizing f with
  | nil => exact hf
  | cons kv rest ih => exact ih _ (nodup_keys_setKey f kv.1 kv.2 hf)

/-! ## Structure of `Flatten` -/

theorem Flatten_cons (kv : String × Value) (rest : Fields) (b : List Value) :
    Fields.Flatten (kv :: rest) b =
      Fields.Flatten rest (if isReserved kv.1 then b else b ++ [Value.str kv.1, kv.2]) := by
  by_cases h : isReserved kv.1 <;> simp [Fields.Flatten, h]

theorem Flatten_buf (f : Fields) (b : List Value) :
    Fields.Flatten f b = b ++ Fields.Flatten f [] := by
  induction f generalizing b with
  | nil => simp [Fields.Flatten]
  | cons kv rest ih =>
    rw [Flatten_cons, Flatten_cons]
    by_cases h : isReserved kv.1
    · rw [if_pos h, if_pos h, ih b]
    · rw [if_neg h, if_neg h, ih (b ++ [Value.str kv.1, kv.2]),
        ih ([] ++ [Value.str kv.1, kv.2])]
      simp

theorem chunkPairs_Flatten (f : Fields) :
    chunkPairs (Fields.Flatten f []) =
      (f.filter (fun kv => !isReserved kv.1)).map (fun kv => (Value.str kv.1, kv.2)) := by
  induction f with
  | nil => rfl
  | cons kv rest ih =>
    rw [Flatten_cons]
    by_cases h : isReserved kv.1
    · rw [if_pos h]
      simp [List.filter_cons, h, ih]
    · rw [if_neg h, List.nil_append, Flatten_buf rest [Value.str kv.1, kv.2]]
      simp [chunkPairs, List.filter_cons, h, ih]

theorem length_Flatten (f : Fields) :
    (Fields.Flatten f []).length = 2 * (f.filter (fun kv => !isReserved kv.1)).length := by
  induction f with
  | nil => rfl
  | cons kv rest ih =>
    rw [Flatten_cons]
    by_cases h : isReserved kv.1
    · rw [if_pos h]
      simp [List.filter_cons, h, ih]
    · rw [if_neg h, List.nil_append, Flatten_buf rest [Value.str kv.1, kv.2]]
      simp [List.filter_cons, h, ih]
      omega

theorem countOcc_eq_zero_of_not_mem (x : Value × Value) (l : List (Value × Value))
    (h : x ∉ l) : countOcc x l = 0 := by
  induction l with
  | nil => rfl
  | cons y rest ih =>
    rw [List.mem_cons] at h
    push_neg at h
    have hne : y ≠ x := fun he => h.1 he.symm
    simp only [countOcc, if_neg hne, ih h.2]

theorem countOcc_map_unique (k : String) (v : Value) (l : List (String × Value))
    (hnd : (l.map Prod.fst).Nodup) (hmem : (k, v) ∈ l) :
    countOcc (Value.str k, v) (l.map (fun kv => (Value.str kv.1, kv.2))) = 1 := by
  induction l with
  | nil => cases hmem
  | cons a rest ih =>
    simp only [List.map_cons, List.nodup_cons] at hnd
    rcases List.mem_cons.1 hmem with he | hm
    · rw [List.map_cons, ← he]
      have hk1 : a.1 = k := by rw [← he]
      have hz : countOcc (Value.str k, v)
          (rest.map (fun kv => (Value.str kv.1, kv.2))) = 0 := by
        refine countOcc_eq_zero_of_not_mem _ _ (fun hc => ?_)
        rcases List.mem_map.1 hc with ⟨kv, hkv, hekv⟩
        have hkv1 : kv.1 = k := by
          have h1 := congrArg Prod.fst hekv
          simpa using h1
        have hmm : kv.1 ∈ rest.map Prod.fst := List.mem_map_of_mem Prod.fst hkv
        rw [hkv1] at hmm
        rw [hk1] at hnd
        exact hnd.1 hmm
      simp [countOcc, hz]
    · have hk : k ∈ rest.map Prod.fst := by
        have := List.mem_map_of_mem Prod.fst hm
        simpa using this
      have hne : (Value.str a.1, a.2) ≠ (Value.str k, v) := by
        intro hc
        have ha1 : a.1 = k := by
          have h1 := congrArg Prod.fst hc
          simpa using h1
        rw [← ha1] at hk
        exact hnd.1 hk
      rw [List.map_cons]
      rw [show countOcc (Value.str k, v) ((Value.str a.1, a.2) ::
        rest.map (fun kv => (Value.str kv.1, kv.2)))
        = (if (Value.str a.1, a.2) = (Value.str k, v) then 1 else 0)
          + countOcc (Value.str k, v) (rest.map (fun kv => (Value.str kv.1, kv.2)))
        from rfl, if_neg hne, ih hnd.2 hm]

/-! ## Heap lemmas -/

theorem Heap.get_alloc_old (h : Heap) (m : Fields) (r : Nat) (hr : r < h.maps.length) :
    (h.alloc m).1.get r = h.get r := by
  simp [Heap.alloc, Heap.get, List.getD_eq_getElem?_getD, List.getElem?_append, hr]

theorem Heap.get_alloc_new (h : Heap) (m : Fields) :
    (h.alloc m).1.get h.maps.length = m := by
  simp only [Heap.alloc, Heap.get]
  rw [List.getD_eq_getElem?_getD, List.getElem?_concat_length]
  rfl

theorem Heap.length_alloc (h : Heap) (m : Fields) :
    (h.alloc m).1.maps.length = h.maps.length + 1 := by
  simp [Heap.alloc]

theorem Heap.length_assign (h : Heap) (r : Nat) (k : String) (v : Value) :
    (h.assign r k v).maps.length = h.maps.length := by
  simp [Heap.assign]

theorem Heap.get_assign_ne (h : Heap) (r : Nat) (k : String) (v : Value) (r' : Nat)
    (hne : r' ≠ r) : (h.assign r k v).get r' = h.get r' := by
  simp only [Heap.assign, Heap.get]
  rw [List.getD_eq_getElem?_getD, List.getElem?_set, if_neg (fun he => hne he.symm),
    List.getD_eq_getElem?_getD]

theorem Heap.get_assign_self (h : Heap) (r : Nat) (k : String) (v : Value)
    (hr : r < h.maps.length) : (h.assign r k v).get r = setKey (h.get r) k v := by
  simp only [Heap.assign, Heap.get]
  rw [List.getD_eq_getElem?_getD, List.getElem?_set_eq_of_lt _ hr]
  rfl

theorem foldl_assign_length (entries : Fields) (h : Heap) (c : Nat) :
    (entries.foldl (fun hh kv => hh.assign c kv.1 kv.2) h).maps.length = h.maps.length := by
  induction entries generalizing h with
  | nil => rfl
  | cons kv rest ih =>
    rw [List.foldl_cons, ih]
    exact Heap.length_assign h c kv.1 kv.2

theorem foldl_assign_get_ne (entries : Fields) (h : Heap) (c : Nat) (r' : Nat)
    (hne : r' ≠ c) :
    (entries.foldl (fun hh kv => hh.assign c kv.1 kv.2) h).get r' = h.get r' := by
  induction entries generalizing h with
  | nil => rfl
  | cons kv rest ih =>
    rw [List.foldl_cons, ih]
    exact Heap.get_assign_ne h c kv.1 kv.2 r' hne

theorem foldl_assign_get_self (entries : Fields) (h : Heap) (c : Nat)
    (hc : c < h.maps.length) :
    (entries.foldl (fun hh kv => hh.assign c kv.1 kv.2) h).get c
      = mergeContents (h.get c) entries := by
  induction entries generalizing h with
  | nil => rfl
  | cons kv rest ih =>
    rw [List.foldl_cons, mergeContents_cons,
      ih (h.assign c kv.1 kv.2) (by rw [Heap.length_assign]; exact hc),
      Heap.get_assign_self h c kv.1 kv.2 hc]

/-- Master lemma for `Fields.Merge`: the returned reference is fresh, it
holds the semantic merge of the two inputs, the heap grows by exactly the
copy, and every previously allocated map — the receiver and the argument
included — is untouched. -/
theorem Merge_eq (h : Heap) (f e : Nat) :
    Fields.Merge h f e =
      (((h.alloc (h.get f)).1.get e).foldl
        (fun hh kv => hh.assign h.maps.length kv.1 kv.2) (h.alloc (h.get f)).1,
       h.maps.length) := rfl

theorem Merge_master (h : Heap) (f e : Nat) (hf : f < h.maps.length)
    (he : e < h.maps.length) :
    (Fields.Merge h f e).2 = h.maps.length ∧
    (Fields.Merge h f e).1.get h.maps.length = mergeContents (h.get f) (h.get e) ∧
    (Fields.Merge h f e).1.maps.length = h.maps.length + 1 ∧
    ∀ r, r < h.maps.length → (Fields.Merge h f e).1.get r = h.get r := by
  refine ⟨rfl, ?_, ?_, ?_⟩
  · rw [Merge_eq, Heap.get_alloc_old h (h.get f) e he,
      foldl_assign_get_self (h.get e) (h.alloc (h.get f)).1 h.maps.length
        (by rw [Heap.length_alloc]; omega),
      Heap.get_alloc_new h (h.get f)]
  · rw [Merge_eq]
    show (_ : Heap).maps.length = h.maps.length + 1
    rw [foldl_assign_length, Heap.length_alloc]
  · intro r hr
    rw [Merge_eq]
    show (_ : Heap).get r = h.get r
    rw [foldl_assign_get_ne _ _ _ r (by omega), Heap.get_alloc_old h (h.get f) r hr]

theorem mem_keys_iff_lookupF (m : Fields) (k : String) :
    k ∈ keys m ↔ lookupF m k ≠ none := by
  constructor
  · intro hm hn
    exact ((lookupF_eq_none_iff m k).1 hn) hm
  · intro hn
    by_contra hc
    exact hn ((lookupF_eq_none_iff m k).2 hc)

theorem mergeContents_singleton (f : Fields) (k : String) (v : Value) :
    mergeContents f [(k, v)] = setKey f k v := rfl

/-! ## Claim theorems -/

/-- C2: for every field mapping `F` and every mapping `extra` (association
lists in valid heap cells, keys unique as in a Go map), `F.Merge(extra)`
yields a mapping in which each key resolves to `extra`'s value when `extra`
binds it, otherwise to `F`'s value, otherwise to nothing; its keys are
exactly the keys of `F` together with those of `extra`; and the heap cells
of both `F` and `extra` are unchanged by the call. -/
theorem merge_correct (h : Heap) (f e : Nat) (hf : f < h.maps.length)
    (he : e < h.maps.length) (hnd : (keys (h.get e)).Nodup) :
    (∀ k, lookupF ((Fields.Merge h f e).1.get (Fields.Merge h f e).2) k
        = (lookupF (h.get e) k).or (lookupF (h.get f) k)) ∧
    (∀ k, k ∈ keys ((Fields.Merge h f e).1.get (Fields.Merge h f e).2)
        ↔ (k ∈ keys (h.get e) ∨ k ∈ keys (h.get f))) ∧
    (Fields.Merge h f e).1.get f = h.get f ∧
    (Fields.Merge h f e).1.get e = h.get e := by
  obtain ⟨h2, h3, h4, h5⟩ := Merge_master h f e hf he
  have hget : (Fields.Merge h f e).1.get (Fields.Merge h f e).2
      = mergeContents (h.get f) (h.get e) := by rw [h2, h3]
  refine ⟨?_, ?_, h5 f hf, h5 e he⟩
  · intro k
    rw [hget, lookupF_mergeContents _ _ _ hnd]
  · intro k
    rw [mem_keys_iff_lookupF, hget, lookupF_mergeContents _ _ _ hnd,
      mem_keys_iff_lookupF, mem_keys_iff_lookupF]
    cases he' : lookupF (h.get e) k <;> cases hf' : lookupF (h.get f) k <;>
      simp [Option.or]

theorem merge_correct_witness :
    (∀ k, lookupF ((Fields.Merge (Heap.mk [[("x", Value.int 1), ("y", Value.int 2)],
          [("y", Value.int 9), ("z", Value.int 3)]]) 0 1).1.get
          ((Fields.Merge (Heap.mk [[("x", Value.int 1), ("y", Value.int 2)],
          [("y", Value.int 9), ("z", Value.int 3)]]) 0 1).2)) k
        = (lookupF [("y", Value.int 9), ("z", Value.int 3)] k).or
            (lookupF [("x", Value.int 1), ("y", Value.int 2)] k)) ∧
    (∀ k, k ∈ keys ((Fields.Merge (Heap.mk [[("x", Value.int 1), ("y", Value.int 2)],
          [("y", Value.int 9), ("z", Value.int 3)]]) 0 1).1.get
          ((Fields.Merge (Heap.mk [[("x", Value.int 1), ("y", Value.int 2)],
          [("y", Value.int 9), ("z", Value.int 3)]]) 0 1).2))
        ↔ (k ∈ keys [("y", Value.int 9), ("z", Value.int 3)] ∨
           k ∈ keys [("x", Value.int 1), ("y", Value.int 2)])) ∧
    (Fields.Merge (Heap.mk [[("x", Value.int 1), ("y", Value.int 2)],
        [("y", Value.int 9), ("z", Value.int 3)]]) 0 1).1.get 0
      = [("x", Value.int 1), ("y", Value.int 2)] ∧
    (Fields.Merge (Heap.mk [[("x", Value.int 1), ("y", Value.int 2)],
        [("y", Value.int 9), ("z", Value.int 3)]]) 0 1).1.get 1
      = [("y", Value.int 9), ("z", Value.int 3)] :=
  merge_correct (Heap.mk [[("x", Value.int 1), ("y", Value.int 2)],
    [("y", Value.int 9), ("z", Value.int 3)]]) 0 1
    (by decide) (by decide) (by decide)

/-- C1: deriving `L2 := L.With(a ↦ 1)` and `L3 := L.With(b ↦ 2)` from the
same logger `L` (whose context binds neither key), each literal being a
fresh map: afterwards `L2.GetField "b"`, `L3.GetField "a"`, `L.GetField "a"`
and `L.GetField "b"` all miss, and `L`'s field-context heap cell is exactly
what it was before either `With` ran. -/
theorem with_isolation (h : Heap) (L : loggerImpl)
    (A : Heap × Nat) (W2 : Heap × loggerImpl) (B : Heap × Nat) (W3 : Heap × loggerImpl)
    (hL : L.fields < h.maps.length)
    (ha : "a" ∉ keys (h.get L.fields)) (hb : "b" ∉ keys (h.get L.fields))
    (hA : A = h.alloc [("a", Value.int 1)])
    (hW2 : W2 = loggerImpl.With A.1 L A.2)
    (hB : B = W2.1.alloc [("b", Value.int 2)])
    (hW3 : W3 = loggerImpl.With B.1 L B.2) :
    loggerImpl.GetField W3.1 W2.2 "b" = none ∧
    loggerImpl.GetField W3.1 W3.2 "a" = none ∧
    loggerImpl.GetField W3.1 L "a" = none ∧
    loggerImpl.GetField W3.1 L "b" = none ∧
    W3.1.get L.fields = h.get L.fields := by
  subst hA hW2 hB hW3
  set n := h.maps.length with hn
  have hA1len : (h.alloc [("a", Value.int 1)]).1.maps.length = n + 1 :=
    Heap.length_alloc h _
  have hA2 : (h.alloc [("a", Value.int 1)]).2 = n := rfl
  have hAf : (h.alloc [("a", Value.int 1)]).1.get L.fields = h.get L.fields :=
    Heap.get_alloc_old h _ L.fields hL
  have hAn : (h.alloc [("a", Value.int 1)]).1.get n = [("a", Value.int 1)] :=
    Heap.get_alloc_new h _
  obtain ⟨m2ref, m2get, m2len, m2pres⟩ :=
    Merge_master (h.alloc [("a", Value.int 1)]).1 L.fields n
      (by omega) (by omega)
  rw [hA1len] at m2len
  rw [hAf, hAn] at m2get
  -- the heap and logger after the first With
  have hW2fields :
      (loggerImpl.With (h.alloc [("a", Value.int 1)]).1 L
        (h.alloc [("a", Value.int 1)]).2).2.fields = n + 1 := by
    show (Fields.Merge (h.alloc [("a", Value.int 1)]).1 L.fields
      (h.alloc [("a", Value.int 1)]).2).2 = n + 1
    rw [hA2, m2ref, hA1len]
  have hW2heap :
      (loggerImpl.With (h.alloc [("a", Value.int 1)]).1 L
        (h.alloc [("a", Value.int 1)]).2).1
      = (Fields.Merge (h.alloc [("a", Value.int 1)]).1 L.fields n).1 := by
    rw [hA2]; rfl
  rw [hA1len] at m2get m2pres m2ref
  -- contents after the first With
  have c1get : (Fields.Merge (h.alloc [("a", Value.int 1)]).1 L.fields n).1.get (n + 1)
      = mergeContents (h.get L.fields) [("a", Value.int 1)] := m2get
  have c1len : (Fields.Merge (h.alloc [("a", Value.int 1)]).1 L.fields n).1.maps.length
      = n + 2 := m2len
  have c1f : (Fields.Merge (h.alloc [("a", Value.int 1)]).1 L.fields n).1.get L.fields
      = h.get L.fields := by
    rw [m2pres L.fields (by omega), hAf]
  rw [hW2heap]
  set h1 := (Fields.Merge (h.alloc [("a", Value.int 1)]).1 L.fields n).1 with hh1
  -- the second alloc
  have hB2 : (h1.alloc [("b", Value.int 2)]).2 = n + 2 := by
    show h1.maps.length = n + 2
    exact c1len
  have hBlen : (h1.alloc [("b", Value.int 2)]).1.maps.length = n + 3 := by
    rw [Heap.length_alloc, c1len]
  have hBf : (h1.alloc [("b", Value.int 2)]).1.get L.fields = h.get L.fields := by
    rw [Heap.get_alloc_old h1 _ L.fields (by omega), c1f]
  have hBc1 : (h1.alloc [("b", Value.int 2)]).1.get (n + 1)
      = mergeContents (h.get L.fields) [("a", Value.int 1)] := by
    rw [Heap.get_alloc_old h1 _ (n + 1) (by omega), c1get]
  have hBn2 : (h1.alloc [("b", Value.int 2)]).1.get (n + 2) = [("b", Value.int 2)] := by
    have := Heap.get_alloc_new h1 [("b", Value.int 2)]
    rwa [c1len] at this
  -- the second With
  obtain ⟨m3ref, m3get, m3len, m3pres⟩ :=
    Merge_master (h1.alloc [("b", Value.int 2)]).1 L.fields (n + 2)
      (by omega) (by omega)
  rw [hBlen] at m3get m3pres m3ref
  rw [hBf, hBn2] at m3get
  have hW3fields :
      (loggerImpl.With (h1.alloc [("b", Value.int 2)]).1 L
        (h1.alloc [("b", Value.int 2)]).2).2.fields = n + 3 := by
    show (Fields.Merge (h1.alloc [("b", Value.int 2)]).1 L.fields
      (h1.alloc [("b", Value.int 2)]).2).2 = n + 3
    rw [hB2, m3ref]
  have hW3heap :
      (loggerImpl.With (h1.alloc [("b", Value.int 2)]).1 L
        (h1.alloc [("b", Value.int 2)]).2).1
      = (Fields.Merge (h1.alloc [("b", Value.int 2)]).1 L.fields (n + 2)).1 := by
    rw [hB2]; rfl
  rw [hW3heap]
  set h2 := (Fields.Merge (h1.alloc [("b", Value.int 2)]).1 L.fields (n + 2)).1 with hh2
  have h2c1 : h2.get (n + 1) = mergeContents (h.get L.fields) [("a", Value.int 1)] := by
    rw [hh2, m3pres (n + 1) (by omega), hBc1]
  have h2c2 : h2.get (n + 3) = mergeContents (h.get L.fields) [("b", Value.int 2)] := m3get
  have h2f : h2.get L.fields = h.get L.fields := by
    rw [hh2, m3pres L.fields (by omega), hBf]
  have hlba : lookupF (h.get L.fields) "a" = none :=
    (lookupF_eq_none_iff _ _).2 ha
  have hlbb : lookupF (h.get L.fields) "b" = none :=
    (lookupF_eq_none_iff _ _).2 hb
  refine ⟨?_, ?_, ?_, ?_, h2f⟩
  · show lookupF (h2.get ((loggerImpl.With (h.alloc [("a", Value.int 1)]).1 L
      (h.alloc [("a", Value.int 1)]).2).2.fields)) "b" = none
    rw [hW2fields, h2c1, mergeContents_singleton, lookupF_setKey,
      if_neg (by decide), hlbb]
  · show lookupF (h2.get ((loggerImpl.With (h1.alloc [("b", Value.int 2)]).1 L
      (h1.alloc [("b", Value.int 2)]).2).2.fields)) "a" = none
    rw [hW3fields, h2c2, mergeContents_singleton, lookupF_setKey,
      if_neg (by decide), hlba]
  · show lookupF (h2.get L.fields) "a" = none
    rw [h2f, hlba]
  · show lookupF (h2.get L.fields) "b" = none
    rw [h2f, hlbb]

theorem with_isolation_witness :
    loggerImpl.GetField
      (loggerImpl.With
        ((loggerImpl.With (Heap.mk [[("namespace", Value.str "ns")]] |>.alloc
            [("a", Value.int 1)]).1
          (loggerImpl.mk (ZapLogger.mk [] "svc") 0)
          (Heap.mk [[("namespace", Value.str "ns")]] |>.alloc [("a", Value.int 1)]).2).1.alloc
            [("b", Value.int 2)]).1
        (loggerImpl.mk (ZapLogger.mk [] "svc") 0)
        ((loggerImpl.With (Heap.mk [[("namespace", Value.str "ns")]] |>.alloc
            [("a", Value.int 1)]).1
          (loggerImpl.mk (ZapLogger.mk [] "svc") 0)
          (Heap.mk [[("namespace", Value.str "ns")]] |>.alloc [("a", Value.int 1)]).2).1.alloc
            [("b", Value.int 2)]).2).1
      (loggerImpl.With (Heap.mk [[("namespace", Value.str "ns")]] |>.alloc
          [("a", Value.int 1)]).1
        (loggerImpl.mk (ZapLogger.mk [] "svc") 0)
        (Heap.mk [[("namespace", Value.str "ns")]] |>.alloc [("a", Value.int 1)]).2).2
      "b" = none :=
  (with_isolation (Heap.mk [[("namespace", Value.str "ns")]])
    (loggerImpl.mk (ZapLogger.mk [] "svc") 0) _ _ _ _
    (by decide) (by decide) (by decide) rfl rfl rfl rfl).1

/-- C8: `Namespace "x"` followed by `Namespace "y"` yields a logger whose
context holds a single `namespace` key, valued `"y"`; and `Namespace name`
is exactly `With` of the freshly allocated literal map
namespace ↦ name (overwrite-on-collision semantics of `Merge`). -/
theorem namespace_overrides (h : Heap) (L : loggerImpl)
    (N1 N2 : Heap × loggerImpl)
    (hL : L.fields < h.maps.length)
    (hnd : (keys (h.get L.fields)).Nodup)
    (hN1 : N1 = loggerImpl.Namespace h L "x")
    (hN2 : N2 = loggerImpl.Namespace N1.1 N1.2 "y") :
    loggerImpl.GetField N2.1 N2.2 "namespace" = some (Value.str "y") ∧
    (keys (N2.1.get N2.2.fields)).count "namespace" = 1 ∧
    ∀ (h' : Heap) (l : loggerImpl) (ns : String),
      loggerImpl.Namespace h' l ns =
        loggerImpl.With (h'.alloc [("namespace", Value.str ns)]).1 l
          (h'.alloc [("namespace", Value.str ns)]).2 := by
  subst hN1 hN2
  set n := h.maps.length with hn
  have hA2 : (h.alloc [("namespace", Value.str "x")]).2 = n := rfl
  have hA1len : (h.alloc [("namespace", Value.str "x")]).1.maps.length = n + 1 :=
    Heap.length_alloc h _
  have hAf : (h.alloc [("namespace", Value.str "x")]).1.get L.fields = h.get L.fields :=
    Heap.get_alloc_old h _ L.fields hL
  have hAn : (h.alloc [("namespace", Value.str "x")]).1.get n
      = [("namespace", Value.str "x")] := Heap.get_alloc_new h _
  obtain ⟨m1ref, m1get, m1len, m1pres⟩ :=
    Merge_master (h.alloc [("namespace", Value.str "x")]).1 L.fields n
      (by omega) (by omega)
  rw [hA1len] at m1ref m1get m1len m1pres
  rw [hAf, hAn] at m1get
  have hN1heap : (loggerImpl.Namespace h L "x").1
      = (Fields.Merge (h.alloc [("namespace", Value.str "x")]).1 L.fields n).1 := by
    rw [← hA2]; rfl
  have hN1fields : (loggerImpl.Namespace h L "x").2.fields
      = (Fields.Merge (h.alloc [("namespace", Value.str "x")]).1 L.fields n).2 := by
    rw [← hA2]; rfl
  rw [hN1heap]
  set h1 := (Fields.Merge (h.alloc [("namespace", Value.str "x")]).1 L.fields n).1 with hh1
  have hfld : (loggerImpl.Namespace h L "x").2.fields = n + 1 := by
    rw [hN1fields, m1ref]
  have c1get : h1.get (n + 1)
      = mergeContents (h.get L.fields) [("namespace", Value.str "x")] := m1get
  have c1len : h1.maps.length = n + 2 := m1len
  -- second Namespace call
  have hB2 : (h1.alloc [("namespace", Value.str "y")]).2 = n + 2 := by
    show h1.maps.length = n + 2
    exact c1len
  have hBlen : (h1.alloc [("namespace", Value.str "y")]).1.maps.length = n + 3 := by
    rw [Heap.length_alloc, c1len]
  have hBc1 : (h1.alloc [("namespace", Value.str "y")]).1.get (n + 1)
      = mergeContents (h.get L.fields) [("namespace", Value.str "x")] := by
    rw [Heap.get_alloc_old h1 _ (n + 1) (by omega), c1get]
  have hBn2 : (h1.alloc [("namespace", Value.str "y")]).1.get (n + 2)
      = [("namespace", Value.str "y")] := by
    have := Heap.get_alloc_new h1 [("namespace", Value.str "y")]
    rwa [c1len] at this
  obtain ⟨m2ref, m2get, m2len, m2pres⟩ :=
    Merge_master (h1.alloc [("namespace", Value.str "y")]).1 (n + 1) (n + 2)
      (by rw [hBlen]; omega) (by rw [hBlen]; omega)
  rw [hBlen] at m2ref m2get m2len m2pres
  rw [hBc1, hBn2] at m2get
  have hN2heap : (loggerImpl.Namespace h1 (loggerImpl.Namespace h L "x").2 "y").1
      = (Fields.Merge (h1.alloc [("namespace", Value.str "y")]).1 (n + 1) (n + 2)).1 := by
    rw [← hB2, ← hfld]; rfl
  have hN2fields : (loggerImpl.Namespace h1 (loggerImpl.Namespace h L "x").2 "y").2.fields
      = (Fields.Merge (h1.alloc [("namespace", Value.str "y")]).1 (n + 1) (n + 2)).2 := by
    rw [← hB2, ← hfld]; rfl
  rw [hN2heap]
  set h2 := (Fields.Merge (h1.alloc [("namespace", Value.str "y")]).1
    (n + 1) (n + 2)).1 with hh2
  have hfld2 : (loggerImpl.Namespace h1 (loggerImpl.Namespace h L "x").2 "y").2.fields
      = n + 3 := by
    rw [hN2fields, m2ref]
  have hc2 : h2.get (n + 3)
      = setKey (setKey (h.get L.fields) "namespace" (Value.str "x"))
          "namespace" (Value.str "y") := by
    rw [hh2, m2get, mergeContents_singleton, mergeContents_singleton]
  refine ⟨?_, ?_, fun _ _ _ => rfl⟩
  · show lookupF (h2.get ((loggerImpl.Namespace h1
      (loggerImpl.Namespace h L "x").2 "y").2.fields)) "namespace"
      = some (Value.str "y")
    rw [hfld2, hc2, lookupF_setKey, if_pos rfl]
  · show (keys (h2.get ((loggerImpl.Namespace h1
      (loggerImpl.Namespace h L "x").2 "y").2.fields))).count "namespace" = 1
    rw [hfld2, hc2]
    have nd1 := nodup_keys_setKey (h.get L.fields) "namespace" (Value.str "x") hnd
    have nd2 := nodup_keys_setKey _ "namespace" (Value.str "y") nd1
    have hmem : "namespace" ∈ keys (setKey (setKey (h.get L.fields)
        "namespace" (Value.str "x")) "namespace" (Value.str "y")) := by
      rw [mem_keys_iff_lookupF, lookupF_setKey, if_pos rfl]
      simp
    exact List.count_eq_one_of_mem nd2 hmem

theorem namespace_overrides_witness :
    loggerImpl.GetField
      (loggerImpl.Namespace
        (loggerImpl.Namespace (Heap.mk [[]])
          (loggerImpl.mk (ZapLogger.mk [] "svc") 0) "x").1
        (loggerImpl.Namespace (Heap.mk [[]])
          (loggerImpl.mk (ZapLogger.mk [] "svc") 0) "x").2 "y").1
      (loggerImpl.Namespace
        (loggerImpl.Namespace (Heap.mk [[]])
          (loggerImpl.mk (ZapLogger.mk [] "svc") 0) "x").1
        (loggerImpl.Namespace (Heap.mk [[]])
          (loggerImpl.mk (ZapLogger.mk [] "svc") 0) "x").2 "y").2
      "namespace" = some (Value.str "y") :=
  (namespace_overrides (Heap.mk [[]]) (loggerImpl.mk (ZapLogger.mk [] "svc") 0)
    _ _ (by decide) (by decide) rfl rfl).1

/-- C3: `Flatten` drops exactly the reserved keys: on the test mapping it
yields exactly the pair set ("1", 1), ("namespace", "awesome") — treated
as a set of pairs — and on any mapping containing only reserved keys it
yields the empty sequence. -/
theorem flatten_drops_reserved :
    (chunkPairs (Fields.Flatten
        [("1", Value.int 1), ("namespace", Value.str "awesome"),
         ("@timestamp", Value.str "x"), ("message", Value.str "x"),
         ("level", Value.str "x"), ("service", Value.str "x")] [])).Perm
      [(Value.str "1", Value.int 1), (Value.str "namespace", Value.str "awesome")] ∧
    ∀ f : Fields, (∀ kv ∈ f, isReserved kv.1 = true) → Fields.Flatten f [] = [] := by
  constructor
  · decide
  · intro f
    induction f with
    | nil => intro _; rfl
    | cons kv rest ih =>
      intro hres
      rw [Flatten_cons, if_pos (hres kv (List.mem_cons_self kv rest))]
      exact ih (fun kv' h' => hres kv' (List.mem_cons_of_mem kv h'))

theorem flatten_drops_reserved_witness :
    Fields.Flatten [("@timestamp", Value.str "a"), ("message", Value.str "b"),
      ("level", Value.str "c"), ("service", Value.str "d")] [] = [] :=
  flatten_drops_reserved.2 _ (by decide)

/-- C10: assuming the buffer obtained from the pool is empty, `Flatten`
returns a sequence of even length that strictly alternates key then value
(its pair chunking is exactly the non-reserved entries, key first), in
which each non-reserved key of a mapping with unique keys appears exactly
once immediately followed by its value, and nothing else appears. -/
theorem flatten_structure (f : Fields) (hnd : (keys f).Nodup) :
    (Fields.Flatten f []).length
        = 2 * (f.filter (fun kv => !isReserved kv.1)).length ∧
    chunkPairs (Fields.Flatten f [])
        = (f.filter (fun kv => !isReserved kv.1)).map
            (fun kv => (Value.str kv.1, kv.2)) ∧
    ∀ k v, (k, v) ∈ f → isReserved k = false →
      countOcc (Value.str k, v) (chunkPairs (Fields.Flatten f [])) = 1 := by
  refine ⟨length_Flatten f, chunkPairs_Flatten f, ?_⟩
  intro k v hmem hres
  rw [chunkPairs_Flatten]
  have hmemf : (k, v) ∈ f.filter (fun kv => !isReserved kv.1) :=
    List.mem_filter.2 ⟨hmem, by simp [hres]⟩
  have hndf : ((f.filter (fun kv => !isReserved kv.1)).map Prod.fst).Nodup :=
    List.Nodup.sublist (List.Sublist.map Prod.fst (List.filter_sublist f)) hnd
  exact countOcc_map_unique k v _ hndf hmemf

theorem flatten_structure_witness :
    (Fields.Flatten [("1", Value.int 1), ("message", Value.str "x")] []).length
        = 2 * ([("1", Value.int 1), ("message", Value.str "x")].filter
            (fun kv => !isReserved kv.1)).length ∧
    chunkPairs (Fields.Flatten [("1", Value.int 1), ("message", Value.str "x")] [])
        = ([("1", Value.int 1), ("message", Value.str "x")].filter
            (fun kv => !isReserved kv.1)).map (fun kv => (Value.str kv.1, kv.2)) ∧
    ∀ k v, (k, v) ∈ [("1", Value.int 1), ("message", Value.str "x")] →
      isReserved k = false →
      countOcc (Value.str k, v) (chunkPairs (Fields.Flatten
        [("1", Value.int 1), ("message", Value.str "x")] [])) = 1 :=
  flatten_structure [("1", Value.int 1), ("message", Value.str "x")] (by decide)

/-- C9: during a leveled log call — every one of which goes through
`prepare` exactly once — the pooled flatten buffer is acquired exactly
once and released exactly once, the release happens after the base emitter
consumes the flattened list (the trace is acquire, consume, release, in
that order), the released buffer is the reset (length-zero) buffer, and
the pool's size is restored (or grows to one when `Get` had to allocate),
so the buffer is neither leaked nor returned twice. -/
theorem prepare_buffer_discipline (f : Fields) (p : Pool) :
    ((prepare f p).2.2.countP isRel = 1) ∧
    ((prepare f p).2.2.countP isAcq = 1) ∧
    (prepare f p).2.2 = [PoolEvt.acq (poolGet p).1,
      PoolEvt.consume (Fields.Flatten f (poolGet p).1),
      PoolEvt.rel ((Fields.Flatten f (poolGet p).1).take 0)] ∧
    (Fields.Flatten f (poolGet p).1).take 0 = [] ∧
    (prepare f p).2.1.length = (if p.isEmpty then 1 else p.length) := by
  refine ⟨rfl, rfl, rfl, rfl, ?_⟩
  cases p with
  | nil => rfl
  | cons b rest => simp [prepare, poolGet, putFlatten]

theorem newZapLogger_cores_threshold (w : World) (z : Level) (s proto uri : String)
    (ds : Bool) (fmt : String) (ws : List String) (zl : ZapLogger)
    (hok : newZapLogger w z s proto uri ds fmt = (ws, Except.ok zl)) :
    ∀ c ∈ zl.cores, c.threshold = z := by
  unfold newZapLogger at hok
  have hcores1 : ∀ c ∈ (if ds then ([] : List Core) else [newStdoutCore z fmt]),
      c.threshold = z := by
    by_cases hds : ds = true <;> simp [hds, newStdoutCore]
  by_cases hu : uri ≠ ""
  · rw [if_pos hu] at hok
    rcases hl : newLogstashCore w z proto uri with e | c0 <;> rw [hl] at hok <;>
      simp only [Prod.mk.injEq] at hok
    · cases hok.2
    · obtain ⟨-, h2⟩ := hok
      injection h2 with h3
      subst h3
      intro c hc
      rw [List.mem_append] at hc
      rcases hc with hc | hc
      · exact hcores1 c hc
      · rw [List.mem_singleton] at hc
        subst hc
        unfold newLogstashCore at hl
        by_cases hd : w.dialOk proto uri = true
        · rw [if_pos hd] at hl
          injection hl with h4
          rw [← h4]
        · rw [if_neg hd] at hl
          cases hl
  · rw [if_neg hu] at hok
    simp only [Prod.mk.injEq] at hok
    obtain ⟨-, h2⟩ := hok
    injection h2 with h3
    subst h3
    exact hcores1

/-- C4: construction validates configuration: an empty severity level
defaults to "info" with a warning (every sink threshold of a successfully
built logger is then info); an empty format defaults to JSON; an
unrecognized format or level name yields a `ConfigError`, and in
particular level "bogus" makes `New` return a `ConfigError` with no
logger. -/
theorem new_validates_config (cfg : LoggingConfig) (w : World) :
    (cfg.Level = "" → "logging level not set, using info" ∈ (New w cfg).1) ∧
    (cfg.Level = "" → ∀ lg, (New w cfg).2 = Except.ok lg →
        ∀ c ∈ lg.base.cores, c.threshold = Level.info) ∧
    getFormat "" = Except.ok FormatJSON ∧
    (∀ fmt, fmt ≠ "" → fmt ≠ FormatJSON → fmt ≠ FormatPretty →
        getFormat fmt = Except.error (ConfigError.badFormat fmt)) ∧
    (∀ lv, lv ∉ ["debug", "info", "warn", "error", "fatal", "panic"] →
        getLevel lv = Except.error (ConfigError.badLevel lv)) ∧
    (cfg.Level = "bogus" → ∃ ce, (New w cfg).2 = Except.error (Err.config ce)) := by
  have hgl : getLevel "info" = Except.ok Level.info := rfl
  refine ⟨?_, ?_, rfl, ?_, ?_, ?_⟩
  · intro h
    unfold New
    rw [h]
    rcases hf : getFormat cfg.FormatStdout with e | fmt
    · simp [hf]
    · rcases hz : newZapLogger w Level.info cfg.Service cfg.LogstashProtocol
        cfg.LogstashURI cfg.DisableStdout fmt with ⟨ws, res⟩
      cases res <;> simp [hf, hgl, hz]
  · intro h lg hok c hc
    unfold New at hok
    rw [h] at hok
    simp only [eq_self_iff_true, if_true] at hok
    rcases hf : getFormat cfg.FormatStdout with e | fmt <;> simp only [hf] at hok
    · exact Except.noConfusion hok
    · simp only [hgl] at hok
      rcases hz : newZapLogger w Level.info cfg.Service cfg.LogstashProtocol
        cfg.LogstashURI cfg.DisableStdout fmt with ⟨ws, res⟩
      cases res with
      | error e =>
        simp only [hz] at hok
        exact Except.noConfusion hok
      | ok zl =>
        simp only [hz] at hok
        injection hok with h5
        rw [← h5] at hc
        exact newZapLogger_cores_threshold w Level.info cfg.Service
          cfg.LogstashProtocol cfg.LogstashURI cfg.DisableStdout fmt ws zl hz c hc
  · intro fmt h1 h2 h3
    unfold getFormat
    rw [if_neg h1, if_pos ⟨h2, h3⟩]
  · intro lv hlv
    simp only [List.mem_cons, List.not_mem_nil, or_false, not_or] at hlv
    obtain ⟨n1, n2, n3, n4, n5, n6⟩ := hlv
    unfold getLevel
    rw [if_neg n1, if_neg n2, if_neg n3, if_neg n4, if_neg n5, if_neg n6]
  · intro h
    unfold New
    rw [h]
    rcases hf : getFormat cfg.FormatStdout with e | fmt
    · exact ⟨e, by simp [hf]⟩
    · refine ⟨ConfigError.badLevel "bogus", ?_⟩
      have hb : getLevel "bogus" = Except.error (ConfigError.badLevel "bogus") := rfl
      simp [hf, hb]

theorem new_validates_config_witness :
    ∃ ce, (New (World.mk fun _ _ => true)
      (LoggingConfig.mk "svc" "bogus" "ns" false "json" "" "udp")).2
        = Except.error (Err.config ce) :=
  (new_validates_config (LoggingConfig.mk "svc" "bogus" "ns" false "json" "" "udp")
    (World.mk fun _ _ => true)).2.2.2.2.2 rfl

/-- C5: `Recover` with no panic unwinding is a no-op; with an error-like
payload it logs the payload via `Trace` and then makes the Panic-level
call carrying the message and the payload; a string payload is wrapped
into an error first; any other payload is dropped from the trace step but
still carried by the Panic-level call. -/
theorem recover_behaviour (msg : String) :
    Recover none msg = [] ∧
    (∀ e, Recover (some (PanicPayload.err e)) msg
        = [Event.errorTrace e, Event.panicLog msg (PanicPayload.err e)]) ∧
    (∀ s, Recover (some (PanicPayload.str s)) msg
        = [Event.errorTrace (errorsNew s), Event.panicLog msg (PanicPayload.str s)]) ∧
    (∀ v, Recover (some (PanicPayload.other v)) msg
        = [Event.panicLog msg (PanicPayload.other v)]) ∧
    (∀ e, Trace (some e) = [Event.errorTrace e]) ∧
    Trace none = [] :=
  ⟨rfl, fun _ => rfl, fun _ => rfl, fun _ => rfl, fun _ => rfl, rfl⟩

/-- C6: a sink emits a record iff the record's severity is at least the
sink's minimum severity, with the order
debug < info < warn < error < fatal < panic; and both core constructors
install exactly the given threshold. -/
theorem sink_threshold_filtering (c : Core) (r : LogRecord) :
    (coreWrite c r = [r] ↔ c.threshold.toNat ≤ r.level.toNat) ∧
    (coreWrite c r = [] ↔ ¬c.threshold.toNat ≤ r.level.toNat) ∧
    (∀ z fmt, (newStdoutCore z fmt).threshold = z) ∧
    (∀ w z proto addr cc, newLogstashCore w z proto addr = Except.ok cc →
        cc.threshold = z) ∧
    (Level.debug.toNat < Level.info.toNat ∧ Level.info.toNat < Level.warn.toNat ∧
     Level.warn.toNat < Level.error.toNat ∧ Level.error.toNat < Level.fatal.toNat ∧
     Level.fatal.toNat < Level.panic.toNat) := by
  refine ⟨?_, ?_, fun z fmt => rfl, ?_, by decide⟩
  · by_cases h : c.threshold.toNat ≤ r.level.toNat <;>
      simp [coreWrite, Core.enabled, h]
  · by_cases h : c.threshold.toNat ≤ r.level.toNat <;>
      simp [coreWrite, Core.enabled, h]
  · intro w z proto addr cc hok
    unfold newLogstashCore at hok
    by_cases hd : w.dialOk proto addr = true
    · rw [if_pos hd] at hok
      injection hok with h4
      rw [← h4]
    · rw [if_neg hd] at hok
      cases hok

theorem sink_threshold_filtering_witness :
    (Core.mk Level.info Encoder.json
      [("@version", Value.str "1"), ("type", Value.str "log")]).threshold
      = Level.info :=
  (sink_threshold_filtering (Core.mk Level.debug Encoder.json [])
      (LogRecord.mk Level.warn "m")).2.2.2.1
    (World.mk fun _ _ => true) Level.info "udp" "addr"
    (Core.mk Level.info Encoder.json
      [("@version", Value.str "1"), ("type", Value.str "log")]) rfl

/-- C7: with console output disabled and no network address configured
(and well-formed level and format names), construction succeeds, the sink
list is empty, and every log call is accepted and yields no output and no
error. -/
theorem empty_sink_list (cfg : LoggingConfig) (w : World)
    (h1 : cfg.DisableStdout = true) (h2 : cfg.LogstashURI = "")
    (h3 : cfg.Level = "" ∨
      cfg.Level ∈ ["debug", "info", "warn", "error", "fatal", "panic"])
    (h4 : cfg.FormatStdout = "" ∨ cfg.FormatStdout = FormatJSON ∨
      cfg.FormatStdout = FormatPretty) :
    ∃ lg, (New w cfg).2 = Except.ok lg ∧ lg.base.cores = [] ∧
      ∀ r, logCall lg r = [] := by
  obtain ⟨s, lv, ns, ds, fs, lu, lp⟩ := cfg
  simp only at h1 h2 h3 h4
  subst h1
  subst h2
  simp only [List.mem_cons, List.not_mem_nil, or_false] at h3
  rcases h4 with h4 | h4 | h4 <;> subst h4 <;>
    rcases h3 with h3 | h3 | h3 | h3 | h3 | h3 | h3 <;> subst h3 <;>
    exact ⟨_, rfl, rfl, fun r => rfl⟩

theorem empty_sink_list_witness :
    ∃ lg, (New (World.mk fun _ _ => false)
      (LoggingConfig.mk "svc" "info" "ns" true "json" "" "udp")).2
        = Except.ok lg ∧ lg.base.cores = [] ∧ ∀ r, logCall lg r = [] :=
  empty_sink_list (LoggingConfig.mk "svc" "info" "ns" true "json" "" "udp")
    (World.mk fun _ _ => false) rfl rfl
    (Or.inr (by simp)) (Or.inr (Or.inl rfl))

end LoggerRepo
